import Mathlib

/-!
Verification of the go-kubernetes resource-enumeration core: the image-name
parser (`Image.getFromImageName`), the three image collectors
(`getImagesV1`, `getImagesV2`, `GetImagesV3`), the streaming driver
(`GetClusterImagesV2`), context initialization in `NewK8SOutCli`, and the
environment helpers (`GetEnvOrDefault`, `LookupEnvOrDefault`).

Go values are embedded shallowly: strings are Lean `String`, Go slices are
`List`, the Go `map[string]struct\x7b\x7d` presence sets are `Finset String`,
fallible calls return `Except`.
-/

namespace K8s

/-- Embedding of Go `strings.Split(s, sep)` for a one-character separator:
splits on every occurrence of the separator; the result is never empty and
splitting the empty string yields `[[]]` (Go returns `[""]`). -/
def splitChar (sep : Char) : List Char → List (List Char)
  | [] => [[]]
  | c :: cs =>
    let r := splitChar sep cs
    if c = sep then [] :: r
    else (c :: r.headD []) :: r.tail

/-- `Image` from the source: `Repository` and `Tag` fields. -/
structure Image where
  Repository : String
  Tag : String
deriving DecidableEq, Repr

/-- Embedding of `Image.getFromImageName`: `s := strings.Split(name, ":")`;
if `len(s) == 1` then `Repository = name, Tag = "latest"`, else
`Repository = s[0], Tag = s[1]`. The `headD` defaults are never used: in the
else branch `s` has at least two elements. -/
def getFromImageName (name : String) : Image :=
  let s := splitChar ':' name.data
  if s.length = 1 then { Repository := name, Tag := "latest" }
  else { Repository := ⟨s.headD []⟩, Tag := ⟨s.tail.headD []⟩ }

/-- Embedding of `NewImage`: builds an `Image` from the raw name. -/
def NewImage (s : String) : Image := getFromImageName s

/-- `v1.Container`: only the `Image` field is read by the collectors. -/
structure Container where
  Image : String
deriving DecidableEq

/-- `v1.PodSpec`: the container list of a pod. -/
structure PodSpec where
  Containers : List Container
deriving DecidableEq

/-- `v1.Pod`: a record carrying a spec with containers. -/
structure Pod where
  Spec : PodSpec
deriving DecidableEq

/-- `v1.PodList`: a page of pods plus the continue token of its list
metadata (`pods.Continue`), empty when no further pages exist. -/
structure PodList where
  Items : List Pod
  Continue : String
deriving DecidableEq

/-- Body of the inner loop of `getImagesV1`: skip empty images, insert into
the presence set and append to the output on first sight. -/
def v1ContainerStep (acc : Finset String × List String) (c : Container) :
    Finset String × List String :=
  if c.Image ≠ "" then
    if c.Image ∈ acc.1 then acc
    else (insert c.Image acc.1, acc.2 ++ [c.Image])
  else acc

/-- Embedding of `getImagesV1`: scan pods, then containers, maintaining the
`imageSet` presence set (a Go `map[string]struct\x7b\x7d`, here a `Finset`)
and the `images` output slice. -/
def getImagesV1 (pods : PodList) : List String :=
  (pods.Items.foldl (fun acc pod => pod.Spec.Containers.foldl v1ContainerStep acc)
    ((∅ : Finset String), ([] : List String))).2

/-- Body of the inner loop of `getImagesV2` / `GetImagesV3`: skip empty
images, insert into the presence set. -/
def v2ContainerStep (s : Finset String) (c : Container) : Finset String :=
  if c.Image ≠ "" then insert c.Image s else s

/-- Embedding of `getImagesV2`: the consumer drains the pod channel and
inserts every non-empty container image into `imageSet`. The channel's
contents are modelled as the list of pods sent over it; the Go function
finally copies the map keys into a slice in nondeterministic map-iteration
order, so the deterministic content is the key set itself. -/
def getImagesV2 (podChan : List Pod) : Finset String :=
  podChan.foldl
    (fun s pod => pod.Spec.Containers.foldl v2ContainerStep s) ∅

/-- Embedding of `GetImagesV3`: one goroutine per pod sends every non-empty
container image onto a shared channel; the aggregator inserts each received
image into `imageSet`. The multiset of sent images is independent of the
interleaving and set insertion commutes, so the resulting key set equals
this fold; the final slice again enumerates the keys in nondeterministic
order. -/
def GetImagesV3 (pods : PodList) : Finset String :=
  pods.Items.foldl
    (fun s pod => pod.Spec.Containers.foldl v2ContainerStep s) ∅

/-- All non-empty container images of a list of pods, in scan order. -/
def podImagesL (ps : List Pod) : List String :=
  ((ps.map (fun p => p.Spec.Containers.map (fun c => c.Image))).flatten).filter (· ≠ "")

/-- All non-empty container images of a pod list, in scan order. -/
def podImages (pods : PodList) : List String :=
  podImagesL pods.Items

/-- First-occurrence deduplication, the specification-side canonical form:
keep each element the first time it appears, drop later repeats. -/
def dedupFS : List String → List String
  | [] => []
  | x :: xs => x :: dedupFS (xs.filter (· ≠ x))
termination_by l => l.length
decreasing_by
  simp only [List.length_cons]
  exact Nat.lt_succ_of_le (List.length_filter_le _ _)

/-- Specification-side step on a plain image string: first-sight insert and
append (the `c.Image ≠ ""` guard already discharged). -/
def dStep (acc : Finset String × List String) (img : String) :
    Finset String × List String :=
  if img ∈ acc.1 then acc else (insert img acc.1, acc.2 ++ [img])

/-- First-occurrence deduplication relative to an already-seen set. -/
def dedupFSFrom (s : Finset String) : List String → List String
  | [] => []
  | x :: xs => if x ∈ s then dedupFSFrom s xs else x :: dedupFSFrom (insert x s) xs

/-- A fetch error returned by the pod lister (transport, auth, decode). -/
structure FetchErr where
  msg : String
deriving DecidableEq

/-- Embedding of the producer goroutine of `GetClusterImagesV2`: starting
from the empty continue token it repeatedly lists a page, stops silently on
any fetch error, sends the page's pods, and stops when the returned continue
token is empty. `fuel` bounds the number of list calls (the Go loop is
unbounded); the returned list is the sequence of pods sent on `podChan`. -/
def streamPods (fetch : String → Except FetchErr PodList) : Nat → String → List Pod
  | 0, _ => []
  | fuel + 1, tok =>
    match fetch tok with
    | .error _ => []
    | .ok pl =>
        pl.Items ++ (if pl.Continue = "" then [] else streamPods fetch fuel pl.Continue)

/-- Embedding of `GetClusterImagesV2`: starts the producer, drains the
channel with `getImagesV2`, and returns the collected set together with a
`nil` error — the Go source ends in `return getImagesV2(podChan), nil`, so
the error component is always `ok`, whichever fetch calls failed. -/
def GetClusterImagesV2 (fetch : String → Except FetchErr PodList) (fuel : Nat) :
    Except FetchErr (Finset String) :=
  Except.ok (getImagesV2 (streamPods fetch fuel ""))

/-- A fetcher whose every list call fails. -/
def badFetch : String → Except FetchErr PodList := fun _ => Except.error { msg := "boom" }

/-- A Go `context.Context` value: `background` is `context.Background()`,
`custom` any other context; a nil interface value is modelled as `none`. -/
inductive GoContext where
  | background
  | custom (id : Nat)
deriving DecidableEq

/-- Embedding of the context-initialization step of `NewK8SOutCli`: the Go
source stores `ctx` when `ctx != nil` and `context.Background()` otherwise.
The rest of `NewK8SOutCli` (kubeconfig resolution, client construction) is
I/O that never touches the stored context. -/
def newK8SOutCliCtx (ctx : Option GoContext) : GoContext :=
  match ctx with
  | some c => c
  | none => GoContext.background

/-- Embedding of `env.GetEnvOrDefault`: the process environment is a lookup
function; an unset variable yields the default `other`. -/
def GetEnvOrDefault (env : String → Option String) (name other : String) : String :=
  match env name with
  | none => other
  | some found => found

/-- Embedding of `env.LookupEnvOrDefault`: resolve the variable (or the
default), then replace the resolved value by its alias when it is a key of
`lookUpMap`, keeping it unchanged otherwise. The Go map is modelled by its
lookup function. -/
def LookupEnvOrDefault (env : String → Option String) (lookUpMap : String → Option String)
    (name other : String) : String :=
  let defaut := GetEnvOrDefault env name other
  match lookUpMap defaut with
  | some value => value
  | none => defaut

/-- An environment with every variable unset. -/
def env0 : String → Option String := fun _ => none

/-- An alias map carrying the single entry `"other0" ↦ "alias0"`. -/
def m0 : String → Option String := fun s => if s = "other0" then some "alias0" else none

/-- A pod whose single container runs image `img`. -/
def onePod (img : String) : Pod := { Spec := { Containers := [{ Image := img }] } }

/-- Five records all carrying the item identifier `"x:1"`. -/
def fivePods : PodList :=
  { Items := [onePod "x:1", onePod "x:1", onePod "x:1", onePod "x:1", onePod "x:1"],
    Continue := "" }

theorem splitChar_ne_nil (sep : Char) (l : List Char) : splitChar sep l ≠ [] := by
  cases l with
  | nil => simp [splitChar]
  | cons c cs =>
    simp only [splitChar]
    split <;> simp

theorem splitChar_of_not_mem (sep : Char) (l : List Char) (h : sep ∉ l) :
    splitChar sep l = [l] := by
  induction l with
  | nil => rfl
  | cons c cs ih =>
    simp only [List.mem_cons, not_or] at h
    simp only [splitChar]
    rw [if_neg (fun hc => h.1 hc.symm), ih h.2]
    rfl

theorem splitChar_headD (sep : Char) (l : List Char) :
    (splitChar sep l).headD [] = l.takeWhile (· ≠ sep) := by
  induction l with
  | nil => rfl
  | cons c cs ih =>
    simp only [splitChar, List.takeWhile]
    by_cases hc : c = sep
    · subst hc
      simp
    · rw [if_neg hc]
      have hd : decide (c ≠ sep) = true := by simpa using hc
      simp only [List.takeWhile, hd, List.headD_cons, ih]

theorem splitChar_of_mem (sep : Char) (l : List Char) (h : sep ∈ l) :
    splitChar sep l =
      l.takeWhile (· ≠ sep) :: splitChar sep ((l.dropWhile (· ≠ sep)).tail) := by
  induction l with
  | nil => cases h
  | cons c cs ih =>
    by_cases hc : c = sep
    · subst hc
      simp [splitChar, List.takeWhile, List.dropWhile]
    · have hmem : sep ∈ cs := by
        cases h with
        | head => exact absurd rfl hc
        | tail _ h => exact h
      simp only [splitChar]
      rw [if_neg hc, ih hmem]
      have hd : decide (c ≠ sep) = true := by simpa using hc
      simp only [List.takeWhile, List.dropWhile, hd, List.headD_cons, List.tail_cons]

/-- C1 counterexample: on `"a:b:c"` the parser sets `Tag` to `"b"`, the
segment between the first and second colon, not to the entire remainder
`"b:c"` after the first colon as the claim states. -/
theorem C1_counterexample :
    (getFromImageName "a:b:c").Tag = "b" ∧ (getFromImageName "a:b:c").Tag ≠ "b:c" := by
  constructor <;> decide

/-- C1 (amended): for every input containing a `:` separator, the parser
returns `Repository` equal to the portion before the first `:` and `Tag`
equal to the portion after the first `:` up to (not including) the next `:`
— the second colon-separated field, not the entire remainder. -/
theorem C1_amended (name : String) (h : ':' ∈ name.data) :
    getFromImageName name =
      { Repository := ⟨name.data.takeWhile (· ≠ ':')⟩,
        Tag := ⟨((name.data.dropWhile (· ≠ ':')).tail).takeWhile (· ≠ ':')⟩ } := by
  unfold getFromImageName
  rw [splitChar_of_mem ':' name.data h]
  have hne := splitChar_ne_nil ':' ((name.data.dropWhile (· ≠ ':')).tail)
  have hlen : ¬ ((name.data.takeWhile (· ≠ ':') ::
      splitChar ':' ((name.data.dropWhile (· ≠ ':')).tail)).length = 1) := by
    simp only [List.length_cons]
    intro hone
    exact hne (List.length_eq_zero.mp (by omega))
  rw [if_neg hlen]
  simp only [List.headD_cons, List.tail_cons]
  rw [splitChar_headD]

theorem C1_amended_witness :
    (':' ∈ "a:b:c".data) ∧
      getFromImageName "a:b:c" =
        { Repository := ⟨"a:b:c".data.takeWhile (· ≠ ':')⟩,
          Tag := ⟨(("a:b:c".data.dropWhile (· ≠ ':')).tail).takeWhile (· ≠ ':')⟩ } :=
  ⟨by decide, C1_amended "a:b:c" (by decide)⟩

/-- C3 counterexample: the input `"redis:"` contains a separator but nothing
after it, so the parser returns an empty `Tag`, refuting the invariant that
`Tag` is never empty. -/
theorem C3_counterexample : (getFromImageName "redis:").Tag = "" := by decide

/-- C3 (amended): when the input carries no `:` separator, `Tag` defaults to
`"latest"` and is non-empty; an input that contains a separator may yield an
empty `Tag` (see the counterexample). -/
theorem C3_amended (name : String) (h : ':' ∉ name.data) :
    (getFromImageName name).Tag = "latest" ∧ (getFromImageName name).Tag ≠ "" := by
  unfold getFromImageName
  rw [splitChar_of_not_mem ':' name.data h]
  simp

theorem C3_amended_witness :
    (':' ∉ "redis".data) ∧
      ((getFromImageName "redis").Tag = "latest" ∧ (getFromImageName "redis").Tag ≠ "") :=
  ⟨by decide, C3_amended "redis" (by decide)⟩

/-- C6: the parser laws hold: `parse "redis"` gives repository `"redis"`, tag
`"latest"`; `parse "redis:7"` gives repository `"redis"`, tag `"7"`;
`parse ""` is accepted and gives repository `""`, tag `"latest"`. -/
theorem C6_parser_laws :
    getFromImageName "redis" = { Repository := "redis", Tag := "latest" } ∧
    getFromImageName "redis:7" = { Repository := "redis", Tag := "7" } ∧
    getFromImageName "" = { Repository := "", Tag := "latest" } := by
  refine ⟨?_, ?_, ?_⟩ <;> decide

theorem foldl_v1ContainerStep (cs : List Container) (acc : Finset String × List String) :
    cs.foldl v1ContainerStep acc =
      ((cs.map (fun c => c.Image)).filter (· ≠ "")).foldl dStep acc := by
  induction cs generalizing acc with
  | nil => rfl
  | cons c cs ih =>
    simp only [List.foldl_cons, List.map_cons, List.filter_cons]
    by_cases hc : c.Image = ""
    · have h1 : v1ContainerStep acc c = acc := by simp [v1ContainerStep, hc]
      rw [h1, ih]
      simp [hc]
    · have h1 : v1ContainerStep acc c = dStep acc c.Image := by
        simp [v1ContainerStep, dStep, hc]
      rw [h1, ih]
      simp [hc]

theorem foldl_pods_v1 (ps : List Pod) (acc : Finset String × List String) :
    ps.foldl (fun acc pod => pod.Spec.Containers.foldl v1ContainerStep acc) acc =
      (podImagesL ps).foldl dStep acc := by
  induction ps generalizing acc with
  | nil => rfl
  | cons p ps ih =>
    simp only [List.foldl_cons]
    rw [ih, foldl_v1ContainerStep]
    simp [podImagesL, List.filter_append, List.foldl_append]

theorem foldl_dStep_snd (l : List String) (s : Finset String) (out : List String) :
    (l.foldl dStep (s, out)).2 = out ++ dedupFSFrom s l := by
  induction l generalizing s out with
  | nil => simp [dedupFSFrom]
  | cons x xs ih =>
    by_cases hx : x ∈ s
    · simp only [List.foldl_cons, dStep, if_pos hx, dedupFSFrom]
      rw [ih]
    · simp only [List.foldl_cons, dStep, if_neg hx, dedupFSFrom]
      rw [ih]
      simp

theorem dedupFS_nil : dedupFS [] = [] := by
  rw [dedupFS.eq_def]

theorem dedupFS_cons (x : String) (xs : List String) :
    dedupFS (x :: xs) = x :: dedupFS (xs.filter (· ≠ x)) := by
  rw [dedupFS.eq_def]

theorem dedupFSFrom_eq (l : List String) (s : Finset String) :
    dedupFSFrom s l = dedupFS (l.filter (fun x => x ∉ s)) := by
  induction l generalizing s with
  | nil => simp [dedupFSFrom, dedupFS_nil]
  | cons x xs ih =>
    by_cases hx : x ∈ s
    · have hd : decide (x ∉ s) = false := by simpa using hx
      simp only [dedupFSFrom, if_pos hx, List.filter_cons, hd]
      simpa using ih s
    · have hd : decide (x ∉ s) = true := by simpa using hx
      simp only [dedupFSFrom, if_neg hx, List.filter_cons, hd]
      rw [ih (insert x s)]
      simp only [if_true]
      rw [dedupFS_cons]
      have hff : xs.filter (fun a => a ∉ insert x s) =
          (xs.filter (fun a => a ∉ s)).filter (fun a => a ≠ x) := by
        rw [List.filter_filter]
        apply List.filter_congr
        intro a _
        by_cases hax : a = x <;> by_cases has : a ∈ s <;>
          simp [Finset.mem_insert, hax, has]
      rw [hff]

theorem mem_dedupFS (a : String) : ∀ l : List String, a ∈ dedupFS l ↔ a ∈ l := by
  intro l
  induction l using dedupFS.induct with
  | case1 => simp [dedupFS_nil]
  | case2 x xs ih =>
    rw [dedupFS_cons]
    by_cases hax : a = x
    · subst hax
      simp
    · simp only [List.mem_cons, ih, List.mem_filter]
      simp [hax]

theorem nodup_dedupFS : ∀ l : List String, (dedupFS l).Nodup := by
  intro l
  induction l using dedupFS.induct with
  | case1 => simp [dedupFS_nil]
  | case2 x xs ih =>
    rw [dedupFS_cons]
    refine List.nodup_cons.mpr ⟨?_, ih⟩
    intro hx
    have hmem := (mem_dedupFS x _).mp hx
    simp [List.mem_filter] at hmem

theorem getImagesV1_eq_dedupFS (pods : PodList) :
    getImagesV1 pods = dedupFS (podImages pods) := by
  unfold getImagesV1 podImages
  rw [foldl_pods_v1, foldl_dStep_snd, dedupFSFrom_eq]
  simp

theorem foldl_v2ContainerStep (cs : List Container) (s : Finset String) :
    cs.foldl v2ContainerStep s =
      s ∪ ((cs.map (fun c => c.Image)).filter (· ≠ "")).toFinset := by
  induction cs generalizing s with
  | nil => simp
  | cons c cs ih =>
    simp only [List.foldl_cons, List.map_cons, List.filter_cons]
    by_cases hc : c.Image = ""
    · have h1 : v2ContainerStep s c = s := by simp [v2ContainerStep, hc]
      rw [h1, ih]
      simp [hc]
    · have h1 : v2ContainerStep s c = insert c.Image s := by simp [v2ContainerStep, hc]
      rw [h1, ih]
      simp [hc, List.toFinset_cons, Finset.insert_union, Finset.union_insert]

theorem foldl_pods_v2 (ps : List Pod) (s : Finset String) :
    ps.foldl (fun s pod => pod.Spec.Containers.foldl v2ContainerStep s) s =
      s ∪ (podImagesL ps).toFinset := by
  induction ps generalizing s with
  | nil => simp [podImagesL]
  | cons p ps ih =>
    simp only [List.foldl_cons]
    rw [ih, foldl_v2ContainerStep]
    simp [podImagesL, List.filter_append, Finset.union_assoc]

theorem getImagesV2_eq (ps : List Pod) : getImagesV2 ps = (podImagesL ps).toFinset := by
  unfold getImagesV2
  rw [foldl_pods_v2]
  simp

theorem GetImagesV3_eq (pods : PodList) : GetImagesV3 pods = (podImages pods).toFinset := by
  unfold GetImagesV3 podImages
  rw [foldl_pods_v2]
  simp

/-- C2 counterexample: a fetcher whose initial (first) fetch fails. The
Streaming Collector does not propagate the error: it returns a successful,
empty result (`return getImagesV2(podChan), nil`), refuting the claim that
an initial-fetch failure is surfaced to the caller. -/
theorem C2_counterexample :
    GetClusterImagesV2 badFetch 5 = Except.ok (∅ : Finset String) := rfl

/-- C2 (amended): the Streaming Collector never propagates fetch errors:
an initial-fetch failure, like a mid-stream one, terminates the stream
silently and the caller receives a successful result holding whatever was
collected — the empty set when the very first fetch fails. -/
theorem C2_amended (fetch : String → Except FetchErr PodList) (fuel : Nat)
    (e : FetchErr) (h : fetch "" = Except.error e) :
    GetClusterImagesV2 fetch (fuel + 1) = Except.ok (∅ : Finset String) := by
  unfold GetClusterImagesV2
  have hs : streamPods fetch (fuel + 1) "" = [] := by
    simp only [streamPods, h]
  rw [hs]
  rfl

theorem C2_amended_witness :
    (badFetch "" = Except.error { msg := "boom" }) ∧
      GetClusterImagesV2 badFetch (0 + 1) = Except.ok (∅ : Finset String) :=
  ⟨rfl, C2_amended badFetch 0 { msg := "boom" } rfl⟩

/-- C4: on any pod list, the Sequential (`getImagesV1`), Streaming
(`getImagesV2`, fed the same pods over the channel) and Fan-out/Fan-in
(`GetImagesV3`) collectors produce the same set of image identifiers;
only the order of the output sequence may differ. -/
theorem C4_collectors_same_set (pods : PodList) :
    (getImagesV1 pods).toFinset = getImagesV2 pods.Items ∧
      GetImagesV3 pods = getImagesV2 pods.Items := by
  constructor
  · rw [getImagesV2_eq]
    ext a
    rw [List.mem_toFinset, List.mem_toFinset, getImagesV1_eq_dedupFS, mem_dedupFS]
    exact Iff.rfl
  · rw [GetImagesV3_eq, getImagesV2_eq]
    rfl

/-- C5: the Sequential Collector scans every record's containers in order
and appends an image only on first sight: its output is exactly the
first-occurrence deduplication of the non-empty images in scan order, hence
deterministic for a deterministic input order. -/
theorem C5_sequential_first_seen (pods : PodList) :
    getImagesV1 pods = dedupFS (podImages pods) :=
  getImagesV1_eq_dedupFS pods

/-- C7: no collector's result contains a duplicate, and any identifier
occurring in the input — such as one repeated in 5 records — occurs exactly
once in each collector's result. -/
theorem C7_no_duplicates (pods : PodList) :
    ((getImagesV1 pods).Nodup ∧ (getImagesV2 pods.Items).toList.Nodup ∧
      (GetImagesV3 pods).toList.Nodup) ∧
    ∀ x, x ∈ podImages pods →
      ((getImagesV1 pods).count x = 1 ∧
        (getImagesV2 pods.Items).toList.count x = 1 ∧
        (GetImagesV3 pods).toList.count x = 1) := by
  have hn1 : (getImagesV1 pods).Nodup := by
    rw [getImagesV1_eq_dedupFS]
    exact nodup_dedupFS _
  refine ⟨⟨hn1, Finset.nodup_toList _, Finset.nodup_toList _⟩, ?_⟩
  intro x hx
  refine ⟨?_, ?_, ?_⟩
  · refine List.count_eq_one_of_mem hn1 ?_
    rw [getImagesV1_eq_dedupFS, mem_dedupFS]
    exact hx
  · refine List.count_eq_one_of_mem (Finset.nodup_toList _) ?_
    rw [Finset.mem_toList, getImagesV2_eq, List.mem_toFinset]
    exact hx
  · refine List.count_eq_one_of_mem (Finset.nodup_toList _) ?_
    rw [Finset.mem_toList, GetImagesV3_eq, List.mem_toFinset]
    exact hx

theorem C7_no_duplicates_witness :
    ("x:1" ∈ podImages fivePods) ∧
      ((getImagesV1 fivePods).count "x:1" = 1 ∧
        (getImagesV2 fivePods.Items).toList.count "x:1" = 1 ∧
        (GetImagesV3 fivePods).toList.count "x:1" = 1) :=
  ⟨by decide, (C7_no_duplicates fivePods).2 "x:1" (by decide)⟩

/-- C8: the empty string is never in any collector's result: empty container
images are skipped by all three collectors and never inserted. -/
theorem C8_no_empty_identifier (pods : PodList) :
    "" ∉ getImagesV1 pods ∧ "" ∉ getImagesV2 pods.Items ∧ "" ∉ GetImagesV3 pods := by
  have hpi : "" ∉ podImages pods := by
    intro h
    have := List.of_mem_filter h
    simp at this
  refine ⟨?_, ?_, ?_⟩
  · rw [getImagesV1_eq_dedupFS]
    intro h
    exact hpi ((mem_dedupFS _ _).mp h)
  · rw [getImagesV2_eq]
    intro h
    exact hpi (List.mem_toFinset.mp h)
  · rw [GetImagesV3_eq]
    intro h
    exact hpi (List.mem_toFinset.mp h)

/-- C9: `NewK8SOutCli` accepts a nil context: with `nil` it stores
`context.Background()`, with a non-nil context it stores that context
unchanged. -/
theorem C9_ctx_initialization :
    newK8SOutCliCtx none = GoContext.background ∧
      ∀ c : GoContext, newK8SOutCliCtx (some c) = c :=
  ⟨rfl, fun _ => rfl⟩

/-- C10: `LookupEnvOrDefault` applies the alias map to whatever value
`GetEnvOrDefault` resolves, the fallback default included: with the variable
unset and `other` a key of the map, the result is the map's value at
`other`; when the resolved value is not a key, the resolved value itself is
returned. -/
theorem C10_lookup_alias (env lookUpMap : String → Option String) (name other : String) :
    (env name = none → ∀ v, lookUpMap other = some v →
      LookupEnvOrDefault env lookUpMap name other = v) ∧
    (lookUpMap (GetEnvOrDefault env name other) = none →
      LookupEnvOrDefault env lookUpMap name other = GetEnvOrDefault env name other) := by
  constructor
  · intro he v hv
    simp [LookupEnvOrDefault, GetEnvOrDefault, he, hv]
  · intro hm
    simp [LookupEnvOrDefault, hm]

theorem C10_lookup_alias_witness :
    (env0 "SOME_NAME" = none ∧ m0 "other0" = some "alias0") ∧
      LookupEnvOrDefault env0 m0 "SOME_NAME" "other0" = "alias0" :=
  ⟨⟨rfl, by decide⟩, (C10_lookup_alias env0 m0 "SOME_NAME" "other0").1 rfl "alias0" (by decide)⟩

end K8s
